import Mathlib

/-!
Verification of the interactive terminal input/selection subsystem of the
promptheus prompt manager (src/utils/search.rs, src/utils/interactive.rs,
src/utils/pagination.rs), via a shallow embedding.

Modelling conventions:
* Rust `String` / `&str` values are modelled as `List Char` (for functions
  whose proofs need structural splitting) or Lean `String` (for scorer
  inputs, converted with `.toList`).
* Rust `f64` score arithmetic is modelled exactly over `ℚ`; every score
  appearing in the concrete statements below is a dyadic rational on which
  `f64` arithmetic is exact.
* `u16`/`usize` arithmetic is `Nat` with an explicit `% 2^16` where the
  source truncates or may wrap.
* Stateful event loops (the line editor, the menu selector) are embedded as
  step functions over explicit state, driven by a list of input events; a
  run that exhausts its events without the source function returning is the
  source blocking for more input and is modelled as `none`.
* Rust's `slice::sort_by` is a stable sort; a stable sort for a given
  comparator has a unique result, so it is modelled by `List.insertionSort`
  (which is stable) over the comparator's relation.
-/

namespace Promptheus

/-! ### Rust string primitives -/

/-- Splits a char list at every `'\n'`; the separators are dropped and the
pieces (including a possibly empty final remainder) are returned.
Mirrors the splitting underlying Rust's `str::lines` (`split_inclusive('\n')`
with terminators removed). -/
def splitNl : List Char → List (List Char)
  | [] => [[]]
  | c :: rest =>
    if c = '\n' then [] :: splitNl rest
    else
      match splitNl rest with
      | [] => [[c]]
      | h :: t => (c :: h) :: t

/-- Removes a single trailing `'\r'`, as Rust's `str::lines` does from each
piece that was terminated by `'\n'`. -/
def stripCr (a : List Char) : List Char :=
  match a.reverse with
  | '\r' :: t => t.reverse
  | _ => a

/-- Rust `str::lines` on a char list: split at `'\n'`, strip one `'\r'` from
every piece that was `'\n'`-terminated, keep the final unterminated remainder
verbatim unless it is empty. -/
def rustLines (s : List Char) : List (List Char) :=
  let parts := splitNl s
  parts.dropLast.map stripCr ++
    (match parts.getLast? with
     | some [] => []
     | some last => [last]
     | none => [])

/-- The code points with the Unicode `White_Space` property, which is what
Rust's `char::is_whitespace` tests. -/
def rustIsWhitespace (c : Char) : Bool :=
  c.toNat ∈ [0x09, 0x0A, 0x0B, 0x0C, 0x0D, 0x20, 0x85, 0xA0, 0x1680,
    0x2000, 0x2001, 0x2002, 0x2003, 0x2004, 0x2005, 0x2006, 0x2007,
    0x2008, 0x2009, 0x200A, 0x2028, 0x2029, 0x202F, 0x205F, 0x3000]

/-- Rust `str::trim`: drop leading and trailing whitespace. -/
def rustTrim (s : List Char) : List Char :=
  ((s.dropWhile rustIsWhitespace).reverse.dropWhile rustIsWhitespace).reverse

/-- Rust `str::to_lowercase` followed by `.chars().collect()`, as performed
on both the query and each item in `fuzzy_search` (src/utils/search.rs:6,10). -/
def rustLower (s : String) : List Char :=
  s.toList.map Char.toLower

/-! ### FuzzyScorer (src/utils/search.rs:19-50) -/

/-- The scan loop of `calculate_fuzzy_score` (src/utils/search.rs:32-39):
walks the candidate, greedily advancing `query_idx` on a match, counting
`matches` and, once at least one match happened, `total_distance` for each
skipped candidate character.  Returns `(query_idx, matches, total_distance)`. -/
def fuzzyLoop (query : List Char) : List Char → Nat → Nat → Nat → Nat × Nat × Nat
  | [], qi, m, td => (qi, m, td)
  | c :: rest, qi, m, td =>
    if query[qi]? = some c then fuzzyLoop query rest (qi + 1) (m + 1) td
    else if 0 < m then fuzzyLoop query rest qi m (td + 1)
    else fuzzyLoop query rest qi m td

/-- `calculate_fuzzy_score` (src/utils/search.rs:19-50), with the `f64`
arithmetic modelled exactly over `ℚ`. -/
def calculate_fuzzy_score (item query : List Char) : ℚ :=
  if query.isEmpty then 1
  else if item.isEmpty then 0
  else
    let r := fuzzyLoop query item 0 0 0
    let query_idx := r.1
    let matchCount := r.2.1
    let total_distance := r.2.2
    if matchCount = 0 then 0
    else
      let match_ratio : ℚ := (matchCount : ℚ) / (query.length : ℚ)
      let completion_bonus : ℚ := ((query_idx : ℚ) / (query.length : ℚ)) ^ 2
      let distance_penalty : ℚ :=
        if 1 < matchCount then (total_distance : ℚ) / ((matchCount - 1 : Nat) : ℚ) else 0
      match_ratio * completion_bonus * max (1 - distance_penalty / 10) 0

/-- The descending-score ordering used by the `sort_by` comparator in
`fuzzy_search` (src/utils/search.rs:15): `a` may precede `b` iff
`b.1 ≤ a.1` on scores. -/
def scoreRel (a b : Nat × ℚ) : Prop := b.2 ≤ a.2

instance : DecidableRel scoreRel := fun a b =>
  inferInstanceAs (Decidable (b.2 ≤ a.2))

instance : IsTotal (Nat × ℚ) scoreRel :=
  ⟨fun a b => (le_total b.2 a.2).imp id id⟩

instance : IsTrans (Nat × ℚ) scoreRel :=
  ⟨fun _ _ _ hab hbc => le_trans hbc hab⟩

/-- The pre-sort result list built by the loop of `fuzzy_search`
(src/utils/search.rs:9-13): one `(index, score)` pair per item, in input
order. -/
def scoredResults (items : List String) (query : String) : List (Nat × ℚ) :=
  items.enum.map fun p => (p.1, calculate_fuzzy_score (rustLower p.2) (rustLower query))

/-- `fuzzy_search` (src/utils/search.rs:5-17): score every item against the
query, then stably sort by descending score (`sort_by` with
`b.1.partial_cmp(&a.1)`; Rust's `sort_by` is stable, and no score is NaN). -/
def fuzzy_search (items : List String) (query : String) : List (Nat × ℚ) :=
  List.insertionSort scoreRel (scoredResults items query)

/-! ### ExternalFinderBridge (src/utils/search.rs:125-210) -/

/-- The exact byte stream `interactive_search_with_external_tool` writes to
the child's stdin (src/utils/search.rs:186-190): `writeln!(stdin, "{}", item)`
for each item, i.e. each item followed by a single `'\n'`. -/
def finderStdinPayload (items : List (List Char)) : List Char :=
  (items.map fun item => item ++ ['\n']).flatten

/-- The result handling of `interactive_search_with_external_tool`
(src/utils/search.rs:196-209): a non-success exit status yields `none`;
otherwise the whole stdout is trimmed and returned, with an empty trimmed
result yielding `none`. -/
def parseFinderOutput (statusSuccess : Bool) (stdout : List Char) :
    Option (List Char) :=
  if !statusSuccess then none
  else
    let selected := rustTrim stdout
    if selected.isEmpty then none else some selected

/-! ### LineEditor: prompt_multiline (src/utils/interactive.rs:133-219) -/

/-- The crossterm key codes distinguished by the editor loop. -/
inductive EdKey where
  | char (c : Char)
  | enter
  | backspace
  | esc
  | otherKey
  deriving DecidableEq, Repr

/-- The crossterm key modifiers the editor loop inspects. -/
inductive EdMods where
  | none
  | control
  | shift
  | otherMods
  deriving DecidableEq, Repr

/-- The terminal events the editor loop can receive: a key event, a
bracketed-paste event, a failing `event::read()` (whose error the `?`
operator propagates), or an event of a kind the loop ignores. -/
inductive EdEvent where
  | key (code : EdKey) (mods : EdMods)
  | paste (s : List Char)
  | readErr (msg : String)
  | otherEvent
  deriving DecidableEq, Repr

/-- The editor buffer: committed `lines` plus the in-progress
`current_line` (src/utils/interactive.rs:141-142). -/
structure EdState where
  lines : List (List Char)
  currentLine : List Char
  deriving DecidableEq, Repr

/-- The `Event::Paste` branch of `prompt_multiline`
(src/utils/interactive.rs:191-206): iterate over `pasted_text.lines()`;
every line that is not the last is committed as `current_line + line` and
`current_line` is cleared; the last line is appended to `current_line`. -/
def pasteFold : EdState → List (List Char) → EdState
  | st, [] => st
  | st, [last] => ⟨st.lines, st.currentLine ++ last⟩
  | st, l :: l' :: rest =>
    pasteFold ⟨st.lines ++ [st.currentLine ++ l], []⟩ (l' :: rest)

/-- One iteration of the `prompt_multiline` event loop
(src/utils/interactive.rs:144-209).  `Sum.inl` is the next state;
`Sum.inr` is the function's result: `Except.ok` for the joined lines on
plain Enter, `Except.error` for Escape (message `"Input cancelled by user"`)
and for a failing terminal read. -/
def pmStep (st : EdState) : EdEvent → EdState ⊕ Except String (List Char)
  | .key (.char 'j') .control =>
    .inl ⟨st.lines ++ [st.currentLine], []⟩
  | .key .enter .shift =>
    .inl ⟨st.lines ++ [st.currentLine], []⟩
  | .key .enter .none =>
    .inr (.ok (List.intercalate ['\n'] (st.lines ++ [st.currentLine])))
  | .key (.char c) _ =>
    .inl ⟨st.lines, st.currentLine ++ [c]⟩
  | .key .backspace _ =>
    if st.currentLine.isEmpty then
      match st.lines.getLast? with
      | some prev => .inl ⟨st.lines.dropLast, prev⟩
      | none => .inl st
    else .inl ⟨st.lines, st.currentLine.dropLast⟩
  | .key .esc _ => .inr (.error "Input cancelled by user")
  | .paste s => .inl (pasteFold st (rustLines s))
  | .readErr msg => .inr (.error msg)
  | _ => .inl st

/-- Runs the `prompt_multiline` loop over a list of events.  `none` means
the events were exhausted with the loop still blocked on `event::read()`. -/
def pmLoop (st : EdState) : List EdEvent → Option (Except String (List Char))
  | [] => none
  | e :: es =>
    match pmStep st e with
    | .inl st' => pmLoop st' es
    | .inr r => some r

/-- The terminal-mode operations performed by the interactive functions,
recorded as a trace. -/
inductive TermOp where
  | enableRawMode
  | enableBracketedPaste
  | disableBracketedPaste
  | disableRawMode
  | printNewline
  deriving DecidableEq, Repr

/-- Which terminal-mode calls succeed in a given run. -/
structure TermEnv where
  enableRawOk : Bool
  disableRawOk : Bool
  deriving DecidableEq, Repr

/-- `prompt_multiline` (src/utils/interactive.rs:133-219) end to end:
`enable_raw_mode()?` (a failure propagates), `let _ = EnableBracketedPaste`
(failure ignored), the event loop inside an immediately-invoked closure so
that every outcome lands in `result`, then the cleanup of lines 213-217
(`let _ = DisableBracketedPaste; let _ = disable_raw_mode(); println!()`,
both restoration errors discarded) and finally `result` — the restoration
flags of the environment cannot change the outcome. -/
def prompt_multiline (events : List EdEvent) (env : TermEnv) :
    Option (Except String (List Char)) × List TermOp :=
  if !env.enableRawOk then
    (some (.error "enable_raw_mode failed"), [.enableRawMode])
  else
    match pmLoop ⟨[], []⟩ events with
    | some r =>
      (some r, [.enableRawMode, .enableBracketedPaste,
        .disableBracketedPaste, .disableRawMode, .printNewline])
    | none => (none, [.enableRawMode, .enableBracketedPaste])

/-- The exit path of `prompt_input_with_autocomplete`
(src/utils/interactive.rs:126-130): after the closure produced `result`,
the source runs `terminal::disable_raw_mode()?;` — the `?` propagates a
restoration failure, replacing `result` — then `println!()` and `result`. -/
def promptAutocompleteExit (result : Except String (List Char)) (env : TermEnv) :
    Except String (List Char) × List TermOp :=
  if env.disableRawOk then (result, [.disableRawMode, .printNewline])
  else (.error "disable_raw_mode failed", [.disableRawMode])

/-! ### MenuSelector: select_from_list (src/utils/interactive.rs:232-284) -/

/-- The events the `select_from_list` loop distinguishes. -/
inductive SelEvent where
  | up
  | down
  | enter
  | charKey (c : Char)
  | esc
  | otherEvent
  deriving DecidableEq, Repr

/-- One iteration of the `select_from_list` loop
(src/utils/interactive.rs:258-277): Up is `selected.saturating_sub(1)`,
Down increments only while `selected < items.len() - 1`, Enter breaks with
`Some(selected)`, `'q'` and Escape break with `None`, everything else is
ignored. -/
def selStep (len selected : Nat) : SelEvent → Nat ⊕ Option Nat
  | .up => .inl (selected - 1)
  | .down => .inl (if selected < len - 1 then selected + 1 else selected)
  | .enter => .inr (some selected)
  | .charKey c => if c = 'q' then .inr none else .inl selected
  | .esc => .inr none
  | .otherEvent => .inl selected

/-- Runs the `select_from_list` loop; `none` means the events were
exhausted with the loop still blocked on input. -/
def selLoop (len selected : Nat) : List SelEvent → Option (Option Nat)
  | [] => none
  | e :: es =>
    match selStep len selected e with
    | .inl s => selLoop len s es
    | .inr r => some r

/-- `select_from_list` (src/utils/interactive.rs:232-284): an empty item
list returns `None` immediately; otherwise the loop starts with
`selected = 0`. -/
def select_from_list (items : List String) (events : List SelEvent) :
    Option (Option Nat) :=
  if items.isEmpty then some none
  else selLoop items.length 0 events

/-! ### ContentPager (src/utils/pagination.rs:12-16) -/

/-- `should_paginate` (src/utils/pagination.rs:12-16):
`content.lines().count() as u16 > terminal_height * 2 / 3`, with the `u16`
cast and the `u16` multiplication modelled by an explicit `% 2^16`. -/
def should_paginate (content : List Char) (terminal_height : Nat) : Bool :=
  let line_count := (rustLines content).length % 65536
  decide (line_count > terminal_height * 2 % 65536 / 3)

/-- Stable-tie order for ranked pairs: whenever two entries carry the same
score, the one with the smaller input index comes first. -/
def stableTie (a b : Nat × ℚ) : Prop := a.2 = b.2 → a.1 < b.1

/-! ### Helper lemmas -/

theorem splitNl_of_not_mem {a : List Char} (h : '\n' ∉ a) : splitNl a = [a] := by
  induction a with
  | nil => rfl
  | cons c rest ih =>
    have hc : ¬ c = '\n' := fun hh => h (hh ▸ List.mem_cons_self c rest)
    have hr : '\n' ∉ rest := fun hh => h (List.mem_cons_of_mem _ hh)
    simp [splitNl, hc, ih hr]

theorem splitNl_append {a : List Char} (h : '\n' ∉ a) (r : List Char) :
    splitNl (a ++ '\n' :: r) = a :: splitNl r := by
  induction a with
  | nil => simp [splitNl]
  | cons c rest ih =>
    have hc : ¬ c = '\n' := fun hh => h (hh ▸ List.mem_cons_self c rest)
    have hr : '\n' ∉ rest := fun hh => h (List.mem_cons_of_mem _ hh)
    simp [splitNl, hc, ih hr]

theorem stripCr_of_not_mem {a : List Char} (h : '\r' ∉ a) : stripCr a = a := by
  unfold stripCr
  split
  · next t heq =>
      exact absurd (List.mem_reverse.mp (heq ▸ List.mem_cons_self '\r' t)) h
  · rfl

/-- `rustLines` on a text of exactly three lines with a final unterminated
nonempty line. -/
theorem rustLines_three {l1 l2 l3 : List Char}
    (h1 : '\n' ∉ l1) (h2 : '\n' ∉ l2) (h3 : '\n' ∉ l3)
    (hr1 : '\r' ∉ l1) (hr2 : '\r' ∉ l2) (hne : l3 ≠ []) :
    rustLines (l1 ++ '\n' :: (l2 ++ '\n' :: l3)) = [l1, l2, l3] := by
  obtain ⟨c0, l3', rfl⟩ := List.exists_cons_of_ne_nil hne
  unfold rustLines
  rw [splitNl_append h1, splitNl_append h2, splitNl_of_not_mem h3]
  simp [stripCr_of_not_mem hr1, stripCr_of_not_mem hr2]

/-- `rustLines` on a single `writeln!`-framed record with one embedded
newline: the reader sees two records. -/
theorem rustLines_payload_single {a b : List Char}
    (ha : '\n' ∉ a) (hb : '\n' ∉ b) (hra : '\r' ∉ a) (hrb : '\r' ∉ b) :
    rustLines (finderStdinPayload [a ++ '\n' :: b]) = [a, b] := by
  have hpay : finderStdinPayload [a ++ '\n' :: b] = a ++ '\n' :: (b ++ '\n' :: []) := by
    simp [finderStdinPayload]
  rw [hpay]
  unfold rustLines
  rw [splitNl_append ha, splitNl_append hb]
  simp [splitNl, stripCr_of_not_mem hra, stripCr_of_not_mem hrb]

/-- Membership in the stdin payload, for characters other than the
newline terminator that `writeln!` appends. -/
theorem mem_finderStdinPayload {c : Char} (hc : c ≠ '\n') (items : List (List Char)) :
    c ∈ finderStdinPayload items ↔ ∃ i ∈ items, c ∈ i := by
  simp only [finderStdinPayload, List.mem_flatten, List.mem_map]
  constructor
  · rintro ⟨x, ⟨i, hi, rfl⟩, hcx⟩
    rcases List.mem_append.mp hcx with h | h
    · exact ⟨i, hi, h⟩
    · exact absurd (List.mem_singleton.mp h) hc
  · rintro ⟨i, hi, hci⟩
    exact ⟨i ++ ['\n'], ⟨i, hi, rfl⟩, List.mem_append.mpr (Or.inl hci)⟩

/-- If the first query character does not occur in the candidate, the scan
loop of `calculate_fuzzy_score` never matches and never counts distance. -/
theorem fuzzyLoop_of_head_not_mem (query : List Char) (c : Char)
    (hq : query[0]? = some c) :
    ∀ item : List Char, c ∉ item → fuzzyLoop query item 0 0 0 = (0, 0, 0) := by
  intro item
  induction item with
  | nil => intro _; rfl
  | cons d rest ih =>
    intro h
    have hdc : ¬ query[0]? = some d := by
      rw [hq]
      intro hh
      exact h ((Option.some.inj hh) ▸ List.mem_cons_self d rest)
    have hrest : c ∉ rest := fun hm => h (List.mem_cons_of_mem _ hm)
    simp [fuzzyLoop, hdc, ih hrest]

/-- Inserting into a list that is entirely stable-after `x` preserves the
stable-tie pairwise invariant: elements skipped over by `orderedInsert`
strictly exceed `x` in score, so they never tie with it. -/
theorem orderedInsert_pairwise_stableTie (x : Nat × ℚ) :
    ∀ l : List (Nat × ℚ), (∀ y ∈ l, stableTie x y) → l.Pairwise stableTie →
      (List.orderedInsert scoreRel x l).Pairwise stableTie := by
  intro l
  induction l with
  | nil => intro _ _; simp
  | cons y ys ih =>
    intro hall hp
    rw [List.orderedInsert]
    by_cases hxy : scoreRel x y
    · simpa [hxy] using List.Pairwise.cons hall hp
    · rw [if_neg hxy]
      rw [List.pairwise_cons] at hp ⊢
      obtain ⟨hy, hys⟩ := hp
      refine ⟨?_, ih (fun z hz => hall z (List.mem_cons_of_mem _ hz)) hys⟩
      intro z hz
      rcases (List.mem_orderedInsert scoreRel).mp hz with rfl | hz'
      · intro h2
        exact absurd (le_of_eq h2) hxy
      · exact hy z hz'

/-- Insertion sort preserves the stable-tie pairwise invariant: tied
elements stay in their original relative order. -/
theorem insertionSort_pairwise_stableTie :
    ∀ l : List (Nat × ℚ), l.Pairwise stableTie →
      (List.insertionSort scoreRel l).Pairwise stableTie := by
  intro l
  induction l with
  | nil => intro _; simp [List.insertionSort]
  | cons x xs ih =>
    intro hp
    rw [List.pairwise_cons] at hp
    rw [List.insertionSort]
    exact orderedInsert_pairwise_stableTie x _
      (fun y hy => hp.1 y ((List.mem_insertionSort scoreRel).mp hy)) (ih hp.2)

theorem enumFrom_pairwise_fst (l : List String) :
    ∀ n : Nat, (l.enumFrom n).Pairwise (fun a b => a.1 < b.1) := by
  induction l with
  | nil => intro n; simp
  | cons x xs ih =>
    intro n
    rw [List.enumFrom, List.pairwise_cons]
    refine ⟨?_, ih (n + 1)⟩
    rintro ⟨i, a⟩ hy
    exact Nat.lt_of_succ_le (List.mem_enumFrom hy).1

/-- The pre-sort scored list has strictly increasing indices, hence
satisfies the stable-tie invariant. -/
theorem scoredResults_pairwise (items : List String) (query : String) :
    (scoredResults items query).Pairwise stableTie := by
  unfold scoredResults
  rw [List.pairwise_map]
  refine List.Pairwise.imp ?_ (enumFrom_pairwise_fst items 0)
  intro a b h
  exact fun _ => h

theorem scoredResults_map_fst (items : List String) (query : String) :
    (scoredResults items query).map Prod.fst = List.range items.length := by
  unfold scoredResults
  rw [List.map_map]
  have : (Prod.fst ∘ fun p : Nat × String =>
      (p.1, calculate_fuzzy_score (rustLower p.2) (rustLower query))) = Prod.fst := rfl
  rw [this, List.enum_map_fst]

/-! ### Claim C1 -/

/-- C1, counterexample.  The claim says candidates are written to the
finder's stdin separated by a NUL byte rather than a newline, so that the
candidate `"x\ny"` round-trips as one candidate.  In the code
(src/utils/search.rs:186-190) each candidate is written with `writeln!`:
the payload for the single candidate `"x\ny"` is `"x\ny\n"`, contains no
NUL byte, and a line-oriented reader parses it as the two records
`["x", "y"]`, not one. -/
theorem c1_nul_delimiter_counterexample :
    finderStdinPayload [['x', '\n', 'y']] = ['x', '\n', 'y', '\n'] ∧
    Char.ofNat 0 ∉ finderStdinPayload [['x', '\n', 'y']] ∧
    rustLines (finderStdinPayload [['x', '\n', 'y']]) = [['x'], ['y']] ∧
    (rustLines (finderStdinPayload [['x', '\n', 'y']])).length ≠ 1 := by
  refine ⟨rfl, by decide, by decide, by decide⟩

/-- C1, amended: `interactive_search_with_external_tool` writes every
candidate to the child's stdin followed by a newline (`writeln!`), not
NUL-separated: the payload contains a NUL character only where a candidate
itself does, and a candidate with one embedded newline is framed as two
newline-delimited records, so it does not round-trip as a single
candidate. -/
theorem c1_newline_terminated_payload :
    (∀ (items : List (List Char)) (c : Char), c ≠ '\n' →
      (c ∈ finderStdinPayload items ↔ ∃ i ∈ items, c ∈ i)) ∧
    (∀ a b : List Char, '\n' ∉ a → '\n' ∉ b → '\r' ∉ a → '\r' ∉ b →
      rustLines (finderStdinPayload [a ++ '\n' :: b]) = [a, b]) :=
  ⟨fun items _ hc => mem_finderStdinPayload hc items,
   fun _ _ ha hb hra hrb => rustLines_payload_single ha hb hra hrb⟩

/-- C1, witness: the amended statement applied to the candidate
`"x" ++ "\n" ++ "y"` and the NUL character. -/
theorem c1_newline_terminated_payload_witness :
    (Char.ofNat 0 ≠ '\n' ∧
      (Char.ofNat 0 ∈ finderStdinPayload [['x', '\n', 'y']] ↔
        ∃ i ∈ [['x', '\n', 'y']], Char.ofNat 0 ∈ i)) ∧
    rustLines (finderStdinPayload [['x'] ++ '\n' :: ['y']]) = [['x'], ['y']] :=
  ⟨⟨by decide, c1_newline_terminated_payload.1 [['x', '\n', 'y']] (Char.ofNat 0) (by decide)⟩,
   c1_newline_terminated_payload.2 ['x'] ['y'] (by decide) (by decide) (by decide) (by decide)⟩

/-! ### Claim C2 -/

/-- C2, counterexample.  The claim says a successful child's stdout is
parsed as two lines (key, then selection) and that fewer than two lines
mean "nothing selected".  In the code (src/utils/search.rs:198-209) the
whole stdout is trimmed and returned if nonempty: the one-line output
`"hi\n"` yields `Some "hi"` rather than nothing, and the two-line output
`"k\nfoo"` yields the whole trimmed text, not its second line. -/
theorem c2_two_line_parse_counterexample :
    (rustLines ['h', 'i', '\n']).length = 1 ∧
    parseFinderOutput true ['h', 'i', '\n'] = some ['h', 'i'] ∧
    parseFinderOutput true ['k', '\n', 'f', 'o', 'o'] =
      some ['k', '\n', 'f', 'o', 'o'] ∧
    (['k', '\n', 'f', 'o', 'o'] : List Char) ≠ ['f', 'o', 'o'] := by
  refine ⟨by decide, by decide, by decide, by decide⟩

/-- C2, amended: on a non-success exit status the result is `None`; on
success the entire stdout is trimmed of whitespace and returned verbatim
as the selection when nonempty (it is this whole trimmed text, not a
second line, that the caller compares by exact string equality), and an
empty trimmed output means "nothing selected". -/
theorem c2_trimmed_whole_stdout :
    (∀ stdout : List Char, parseFinderOutput false stdout = none) ∧
    (∀ stdout sel : List Char, parseFinderOutput true stdout = some sel →
      sel = rustTrim stdout ∧ sel ≠ []) ∧
    (∀ stdout : List Char, rustTrim stdout ≠ [] →
      parseFinderOutput true stdout = some (rustTrim stdout)) := by
  refine ⟨fun stdout => rfl, fun stdout sel h => ?_, fun stdout h => ?_⟩
  · by_cases he : (rustTrim stdout).isEmpty
    · exfalso
      simp [parseFinderOutput, he] at h
    · have hs : parseFinderOutput true stdout = some (rustTrim stdout) := by
        simp [parseFinderOutput, he]
      have hv : sel = rustTrim stdout := by
        rw [hs] at h
        exact (Option.some.inj h).symm
      subst hv
      exact ⟨rfl, fun hnil => he (by simp [hnil])⟩
  · have he : ¬ (rustTrim stdout).isEmpty := by
      intro hh
      exact h (List.isEmpty_iff.mp hh)
    simp [parseFinderOutput, he]

/-- C2, witness: the amended statement applied to the outputs `"x"` (failed
status) and `"hi\n"` (successful status). -/
theorem c2_trimmed_whole_stdout_witness :
    parseFinderOutput false ['x'] = none ∧
    (rustTrim ['h', 'i', '\n'] ≠ [] ∧
      parseFinderOutput true ['h', 'i', '\n'] = some (rustTrim ['h', 'i', '\n'])) :=
  ⟨c2_trimmed_whole_stdout.1 ['x'],
   by decide,
   c2_trimmed_whole_stdout.2.2 ['h', 'i', '\n'] (by decide)⟩

/-- Concrete score of candidate `"a"` against query `"ab"`: the greedy scan
consumes one of the two query characters, so the score is
`1/2 * (1/2)^2 * 1 = 1/8`. -/
theorem score_a_ab : calculate_fuzzy_score (rustLower "a") (rustLower "ab") = 1 / 8 := by
  have e2 : rustLower "a" = ['a'] := by decide
  have e3 : rustLower "ab" = ['a', 'b'] := by decide
  have e1 : fuzzyLoop ['a', 'b'] ['a'] 0 0 0 = (1, 1, 0) := by decide
  rw [e2, e3]
  simp [calculate_fuzzy_score, e1]
  norm_num [max_def]

/-! ### Claim C3 -/

/-- C3, counterexample.  The claim says that for every non-empty query that
is not a case-insensitive subsequence of the candidate, the fuzzy score is
exactly 0.  But the scan of `calculate_fuzzy_score`
(src/utils/search.rs:32-49) gives partial credit to a matching prefix of
the query: the query `"ab"` is not a subsequence of the candidate `"a"`,
yet its score is `1/2 * (1/2)^2 * 1 = 1/8 ≠ 0`. -/
theorem c3_nonsubsequence_zero_counterexample :
    ¬ List.Sublist (rustLower "ab") (rustLower "a") ∧
    calculate_fuzzy_score (rustLower "a") (rustLower "ab") = 1 / 8 ∧
    (1 / 8 : ℚ) ≠ 0 := by
  refine ⟨by decide, score_a_ab, by norm_num⟩

/-- C3, amended: the score is 0 whenever the first character of the
case-folded query occurs nowhere in the case-folded candidate (then the
greedy scan matches nothing); a non-empty query that is not a subsequence
of the candidate can still receive a positive score when a proper prefix
of it greedy-matches, as the concrete candidate `"a"` / query `"ab"`
scoring `1/8` shows. -/
theorem c3_first_char_absent_score_zero :
    (∀ (item query : List Char) (c : Char), query[0]? = some c → c ∉ item →
      calculate_fuzzy_score item query = 0) ∧
    calculate_fuzzy_score (rustLower "a") (rustLower "ab") = 1 / 8 := by
  constructor
  · intro item query c hq hni
    have hqe : ¬ query.isEmpty := by
      cases query with
      | nil => simp at hq
      | cons a l => simp
    by_cases hit : item.isEmpty
    · simp [calculate_fuzzy_score, hqe, hit]
    · simp [calculate_fuzzy_score, hqe, hit,
        fuzzyLoop_of_head_not_mem query c hq item hni]
  · exact score_a_ab

/-- C3, witness: the amended statement applied to candidate `"b"` and
query `"z"`, whose first character does not occur in the candidate. -/
theorem c3_first_char_absent_score_zero_witness :
    ((['z'] : List Char)[0]? = some 'z' ∧ 'z' ∉ (['b'] : List Char)) ∧
    calculate_fuzzy_score ['b'] ['z'] = 0 :=
  ⟨⟨by decide, by decide⟩,
   c3_first_char_absent_score_zero.1 ['b'] ['z'] 'z' (by decide) (by decide)⟩

/-! ### Claim C4 -/

/-- C4, counterexample.  The claim says Escape terminates `prompt_multiline`
with a Cancelled outcome that is not an error and that callers can
distinguish from a system error.  In the code
(src/utils/interactive.rs:188-190) Escape returns
`Err(anyhow!("Input cancelled by user"))`: the very same error alternative
of the result type that a failing terminal read produces, distinguished
only by its message string. -/
theorem c4_cancel_not_error_counterexample :
    (prompt_multiline [.key .esc .none] ⟨true, true⟩).1 =
      some (Except.error "Input cancelled by user") ∧
    (prompt_multiline [.readErr "read failed"] ⟨true, true⟩).1 =
      some (Except.error "read failed") := by
  refine ⟨rfl, rfl⟩

/-- C4, amended: pressing Escape (with any modifiers) terminates the
`prompt_multiline` session by returning the error alternative of the
result with message `"Input cancelled by user"` — cancellation travels on
the same error channel as system errors and is distinguishable only by
that message, not by a dedicated non-error Cancelled outcome. -/
theorem c4_escape_error_channel :
    ∀ (st : EdState) (m : EdMods),
      pmStep st (.key .esc m) = .inr (.error "Input cancelled by user") := by
  intro st m
  cases m <;> rfl

/-! ### Claim C5 -/

/-- C5, counterexample.  The claim says that pasting a three-line block
with current line `"X"` commits `[line1, line2]` and makes the current
line `"X" + line3`.  In the code (src/utils/interactive.rs:191-206) it is
the FIRST pasted line that is joined onto the current line: pasting
`"a\nb\nc"` with current line `"X"` commits `["Xa", "b"]` and leaves
current line `"c"`. -/
theorem c5_paste_last_line_counterexample :
    pmStep ⟨[], ['X']⟩ (.paste ['a', '\n', 'b', '\n', 'c']) =
      .inl ⟨[['X', 'a'], ['b']], ['c']⟩ ∧
    (⟨[['X', 'a'], ['b']], ['c']⟩ : EdState) ≠ ⟨[['a'], ['b']], ['X', 'c']⟩ := by
  refine ⟨rfl, by decide⟩

/-- C5, amended: a three-line bracketed paste appends the first pasted
line to the current line (preserving the typed prefix) and commits that,
commits the second pasted line as-is, and makes the last pasted line the
new current line: from state `(lines, cur)` the paste of
`l1 ++ "\n" ++ l2 ++ "\n" ++ l3` leads to
`(lines ++ [cur ++ l1, l2], l3)` before any further key press. -/
theorem c5_paste_first_line_joins_prefix :
    ∀ (st : EdState) (l1 l2 l3 : List Char),
      '\n' ∉ l1 → '\n' ∉ l2 → '\n' ∉ l3 → '\r' ∉ l1 → '\r' ∉ l2 → l3 ≠ [] →
      pmStep st (.paste (l1 ++ '\n' :: (l2 ++ '\n' :: l3))) =
        .inl ⟨st.lines ++ [st.currentLine ++ l1, l2], l3⟩ := by
  intro st l1 l2 l3 h1 h2 h3 hr1 hr2 hne
  have hlines := rustLines_three h1 h2 h3 hr1 hr2 hne
  simp [pmStep, hlines, pasteFold]

/-- C5, witness: the amended statement applied to state `([], "X")` and
the paste `"a\nb\nc"`. -/
theorem c5_paste_first_line_joins_prefix_witness :
    ('\n' ∉ (['a'] : List Char) ∧ (['c'] : List Char) ≠ []) ∧
    pmStep ⟨[], ['X']⟩ (.paste (['a'] ++ '\n' :: (['b'] ++ '\n' :: ['c']))) =
      .inl ⟨[] ++ [['X'] ++ ['a'], ['b']], ['c']⟩ :=
  ⟨⟨by decide, by decide⟩,
   c5_paste_first_line_joins_prefix ⟨[], ['X']⟩ ['a'] ['b'] ['c']
     (by decide) (by decide) (by decide) (by decide) (by decide) (by decide)⟩

/-! ### Claim C6 -/

/-- C6, counterexample.  The claim says that on every path out of a
raw-mode interaction the restoration is performed with its secondary
errors swallowed, so a restoration failure never fails the outer
operation.  `prompt_input_with_autocomplete`
(src/utils/interactive.rs:126-130) runs `terminal::disable_raw_mode()?`
with the `?` operator: when that restoration call fails after a session
that produced `Ok "x"`, the function's outcome becomes the restoration
error, failing the outer operation and masking the original result. -/
theorem c6_restoration_swallow_counterexample :
    (promptAutocompleteExit (.ok ['x']) ⟨true, false⟩).1 =
      .error "disable_raw_mode failed" ∧
    (Except.error "disable_raw_mode failed" :
      Except String (List Char)) ≠ .ok ['x'] := by
  refine ⟨rfl, fun h => by cases h⟩

/-- C6, amended: `prompt_multiline` performs the restoration (disable
bracketed paste, disable raw mode, emit a fresh line) on every terminating
path — success, cancellation or error alike — discarding restoration
errors so the outcome is independent of whether restoration succeeds; but
`prompt_input_with_autocomplete` propagates a `disable_raw_mode` failure
with `?`, replacing the session outcome with the restoration error. -/
theorem c6_restoration_paths :
    (∀ (events : List EdEvent) (env env' : TermEnv),
      env.enableRawOk = true → env'.enableRawOk = true →
      prompt_multiline events env = prompt_multiline events env') ∧
    (∀ (events : List EdEvent) (env : TermEnv) (r : Except String (List Char)),
      env.enableRawOk = true → pmLoop ⟨[], []⟩ events = some r →
      prompt_multiline events env =
        (some r, [.enableRawMode, .enableBracketedPaste,
          .disableBracketedPaste, .disableRawMode, .printNewline])) ∧
    (∀ (result : Except String (List Char)) (env : TermEnv),
      env.disableRawOk = false →
      (promptAutocompleteExit result env).1 = .error "disable_raw_mode failed") := by
  refine ⟨fun events env env' h h' => ?_, fun events env r h hl => ?_,
    fun result env h => ?_⟩
  · simp [prompt_multiline, h, h']
  · simp [prompt_multiline, h, hl]
  · simp [promptAutocompleteExit, h]

/-- C6, witness: the amended statement applied to a cancelled session
(`Escape`) under environments that differ in restoration success, and to
the autocomplete exit path with a failing `disable_raw_mode`. -/
theorem c6_restoration_paths_witness :
    (TermEnv.mk true false).enableRawOk = true ∧
    prompt_multiline [.key .esc .none] ⟨true, false⟩ =
      prompt_multiline [.key .esc .none] ⟨true, true⟩ ∧
    prompt_multiline [.key .esc .none] ⟨true, false⟩ =
      (some (.error "Input cancelled by user"),
        [.enableRawMode, .enableBracketedPaste, .disableBracketedPaste,
          .disableRawMode, .printNewline]) ∧
    (promptAutocompleteExit (.ok ['x']) ⟨true, false⟩).1 =
      .error "disable_raw_mode failed" :=
  ⟨rfl,
   c6_restoration_paths.1 [.key .esc .none] ⟨true, false⟩ ⟨true, true⟩ rfl rfl,
   c6_restoration_paths.2.1 [.key .esc .none] ⟨true, false⟩
     (.error "Input cancelled by user") rfl rfl,
   c6_restoration_paths.2.2 (.ok ['x']) ⟨true, false⟩ rfl⟩

/-! ### Claim C7 -/

/-- C7, confirmed: for every candidate list and every query,
`fuzzy_search` returns its `(index, score)` pairs sorted by non-increasing
score (`scoreRel a b` means `b`'s score is at most `a`'s), and entries with
tied scores keep their original input order: whenever two tied entries
appear in the output, the earlier one carries the smaller input index. -/
theorem c7_rank_sorted_stable (items : List String) (query : String) :
    List.Sorted scoreRel (fuzzy_search items query) ∧
    List.Pairwise stableTie (fuzzy_search items query) :=
  ⟨List.sorted_insertionSort scoreRel _,
   insertionSort_pairwise_stableTie _ (scoredResults_pairwise items query)⟩

/-! ### Claim C8 -/

/-- C8, confirmed: in `select_from_list` on a non-empty list the
highlighted index stays in `[0, len)` after every processed key event; Up
at index 0 stays at 0, Down at index `len - 1` stays at `len - 1` (clamped,
no wraparound), Enter returns the current highlighted index, and pressing
Down twice then Enter on a three-item list returns index 2. -/
theorem c8_highlight_clamped :
    (∀ (len sel s : Nat) (e : SelEvent), 0 < len → sel < len →
      selStep len sel e = .inl s → s < len) ∧
    (∀ len : Nat, selStep len 0 .up = .inl 0) ∧
    (∀ len sel : Nat, selStep len (len - 1) .down = .inl (len - 1) ∧
      selStep len sel .enter = .inr (some sel)) ∧
    select_from_list ["a", "b", "c"] [.down, .down, .enter] = some (some 2) := by
  refine ⟨?_, ?_, ?_, ?_⟩
  · intro len sel s e hlen hsel h
    cases e with
    | up =>
      simp [selStep] at h
      omega
    | down =>
      simp [selStep] at h
      split at h <;> omega
    | enter => simp [selStep] at h
    | charKey c =>
      by_cases hc : c = 'q'
      · simp [selStep, hc] at h
      · simp [selStep, hc] at h
        omega
    | esc => simp [selStep] at h
    | otherEvent =>
      simp [selStep] at h
      omega
  · intro len
    simp [selStep]
  · intro len sel
    exact ⟨by simp [selStep], rfl⟩
  · rfl

/-- C8, witness: the step bound applied to the concrete instance
`len = 3`, `sel = 1`, event Up (landing on index 0), plus the concrete
Down-Down-Enter run. -/
theorem c8_highlight_clamped_witness :
    ((0 : Nat) < 3 ∧ (1 : Nat) < 3 ∧
      selStep 3 1 .up = .inl 0 ∧ (0 : Nat) < 3) ∧
    select_from_list ["a", "b", "c"] [.down, .down, .enter] = some (some 2) :=
  ⟨⟨by decide, by decide, by decide,
    c8_highlight_clamped.1 3 1 0 .up (by decide) (by decide) (by decide)⟩,
   c8_highlight_clamped.2.2.2⟩

/-! ### Claim C9 -/

/-- C9, confirmed (for heights and line counts in the `u16` range without
overflow, i.e. `terminal_height * 2 < 2^16` and fewer than `2^16` lines):
`should_paginate` returns true exactly when the line count exceeds
`terminal_height * 2 / 3` in integer arithmetic; in particular a content of
`terminal_height * 2 / 3 + 1` lines paginates and a content of exactly
`terminal_height * 2 / 3` lines does not. -/
theorem c9_should_paginate_threshold :
    ∀ (content : List Char) (height : Nat), height * 2 < 65536 →
      (rustLines content).length < 65536 →
      ((should_paginate content height = true ↔
          (rustLines content).length > height * 2 / 3) ∧
       ((rustLines content).length = height * 2 / 3 + 1 →
          should_paginate content height = true) ∧
       ((rustLines content).length = height * 2 / 3 →
          should_paginate content height = false)) := by
  intro content height hh hl
  have key : should_paginate content height =
      decide ((rustLines content).length > height * 2 / 3) := by
    unfold should_paginate
    rw [Nat.mod_eq_of_lt hl, Nat.mod_eq_of_lt hh]
  refine ⟨?_, ?_, ?_⟩
  · rw [key]
    simp
  · intro hc
    rw [key]
    simp
    omega
  · intro hc
    rw [key]
    simp
    omega

/-- C9, witness: a 24-row terminal with 17 lines of content
(`24 * 2 / 3 = 16 < 17`) paginates. -/
theorem c9_should_paginate_threshold_witness :
    (24 * 2 < 65536 ∧
      (rustLines ((List.replicate 17 ['a', '\n']).flatten)).length < 65536) ∧
    should_paginate ((List.replicate 17 ['a', '\n']).flatten) 24 = true :=
  ⟨⟨by decide, by decide⟩,
   ((c9_should_paginate_threshold ((List.replicate 17 ['a', '\n']).flatten) 24
      (by decide) (by decide)).1).mpr (by decide)⟩

/-! ### Claim C10 -/

/-- C10, confirmed: `fuzzy_search` returns exactly one `(index, score)`
pair per input candidate — the output has the same length as the input and
the returned indices are a permutation of `0 .. items.length`;
non-matching candidates are kept (with score 0), never filtered out. -/
theorem c10_rank_complete_permutation (items : List String) (query : String) :
    (fuzzy_search items query).length = items.length ∧
    List.Perm ((fuzzy_search items query).map Prod.fst)
      (List.range items.length) := by
  constructor
  · rw [fuzzy_search, List.length_insertionSort]
    simp [scoredResults]
  · have hp : List.Perm (fuzzy_search items query) (scoredResults items query) :=
      List.perm_insertionSort scoreRel _
    rw [← scoredResults_map_fst items query]
    exact hp.map Prod.fst

end Promptheus
